import Mathlib

/-!
Verification of the alplay audio player against its specification.

The development shallowly embeds the two core components of the program:

* the output-configuration negotiation in `Arguments::config` (src/arg.rs,
  lines 167-246), embedded below as `Alplay.config` together with the
  per-candidate filtering/clamping step `Alplay.evalCandidate` and the
  distance comparison of the `better` closure, `Alplay.distTo`;
* the bounded drop-oldest streaming buffer `Skipper` (src/src.rs), embedded
  as a state `Alplay.SkipperState` acted on by the background producer loop
  body `Alplay.producerStep` / `Alplay.producerRun` (from `Skipper::handle`)
  and by the consumer-side `Alplay.skipperRead` (from
  `<Skipper as Read>::read`); plus the error branches of the real-time
  callback in `play` (src/play.rs), embedded as
  `Alplay.playCallbackOnReadResult`.

Machine integers (`u16` channel counts, `u32` sample rates, `usize` lengths)
are embedded as `Nat`.  The only arithmetic in the program that can
over- or under-flow is the distance sum of the `better` closure, which is
reduced `% 2 ^ 32` (release-mode wrapping semantics of `u32` addition); all
subtractions in the sources are guarded (`max - min`, drain bound checks)
and are faithfully represented by truncated `Nat` subtraction.
Fallible operations are embedded in `Option`: `none` models a Rust panic
(`unwrap` on an `Err`, an out-of-bounds `VecDeque::drain`) or, for
`Alplay.config`, the `Error::NoSuitableStreamConfig` result.
-/

namespace Alplay

/-! ## Configuration negotiation (src/arg.rs)

`cpal::SampleFormat` has the three variants used by the program.  A
`CapabilityRange` embeds `cpal::SupportedStreamConfigRange`: an exact
channel count and sample format plus an inclusive sample-rate range.
A `Requirement` embeds the three optional hard constraints held by
`Arguments` (`channels`, `sample_rate`, `sample_format`; the endianness
half of `sample_format` never reaches `config`, which only compares the
`cpal::SampleFormat` component).  A `SelectedConfig` embeds the
`cpal::SupportedStreamConfig` produced by `with_sample_rate`. -/

inductive SampleFormat
  | i16 | u16 | f32
deriving DecidableEq

structure CapabilityRange where
  channels : Nat
  format : SampleFormat
  minRate : Nat
  maxRate : Nat
deriving DecidableEq

structure Requirement where
  channels : Option Nat
  sampleRate : Option Nat
  sampleFormat : Option SampleFormat
deriving DecidableEq

structure SelectedConfig where
  channels : Nat
  format : SampleFormat
  rate : Nat
deriving DecidableEq

/-- The result of processing one candidate inside the loop of
`Arguments::config`: the `SupportedStreamConfig` built by
`with_sample_rate` together with the loop-local target values
`sample_rate`, `channels` and `format` that the `better` closure
captures for the distance computation. -/
structure CandidateEval where
  config : SelectedConfig
  targetRate : Nat
  targetChannels : Nat
  targetFormat : SampleFormat
deriving DecidableEq

/-- The distance computed (twice) inside the `better` closure of
`Arguments::config` (src/arg.rs lines 209-228):
`|rate - target_rate| + |channels - target_channels| + (format mismatch)`,
with the `u32` additions wrapping as in release mode. -/
def distTo (targetRate targetChannels : Nat) (targetFormat : SampleFormat)
    (c : SelectedConfig) : Nat :=
  ((max c.rate targetRate - min c.rate targetRate)
    + (max c.channels targetChannels - min c.channels targetChannels)
    + (if c.format ≠ targetFormat then 1 else 0)) % 2 ^ 32

/-- src/arg.rs lines 176-181: `continue` (here `none`) when a required
channel count differs from the candidate's, otherwise the loop-local
`channels` target. -/
def filterChannels (req : Requirement) (preferredChannels : Nat)
    (output : CapabilityRange) : Option Nat :=
  match req.channels with
  | some channels => if output.channels ≠ channels then none else some channels
  | none => some preferredChannels

/-- src/arg.rs lines 183-188: `continue` when a required sample format
differs from the candidate's, otherwise the loop-local `format` target. -/
def filterFormat (req : Requirement) (preferredFormat : SampleFormat)
    (output : CapabilityRange) : Option SampleFormat :=
  match req.sampleFormat with
  | some format => if output.format ≠ format then none else some format
  | none => some preferredFormat

/-- src/arg.rs lines 190-197: `continue` when a required sample rate lies
outside the candidate's `[min, max]` range, otherwise the loop-local
`sample_rate` target. -/
def filterRate (req : Requirement) (preferredRate : Nat)
    (output : CapabilityRange) : Option Nat :=
  match req.sampleRate with
  | some sampleRate =>
    if sampleRate < output.minRate then none
    else if output.maxRate < sampleRate then none
    else some sampleRate
  | none => some preferredRate

/-- src/arg.rs lines 199-207: the candidate configuration built by
`with_sample_rate`.  NOTE: this mirrors the source exactly — in the
`max_sample_rate < sample_rate` branch the source binds
`let min = output.min_sample_rate()` and uses it, so the rate chosen for
a target above the range is the candidate's minimum rate, not its
maximum. -/
def clampConfig (output : CapabilityRange) (sampleRate : Nat) : SelectedConfig :=
  if output.minRate > sampleRate then
    ⟨output.channels, output.format, output.minRate⟩
  else if output.maxRate < sampleRate then
    ⟨output.channels, output.format, output.minRate⟩
  else
    ⟨output.channels, output.format, sampleRate⟩

/-- One iteration of the `for output in supported_output_configs()` loop of
`Arguments::config`, up to the point where `config` and the loop-local
targets are available: `none` means the iteration hit a `continue`. -/
def evalCandidate (req : Requirement) (preferredRate preferredChannels : Nat)
    (preferredFormat : SampleFormat) (output : CapabilityRange) :
    Option CandidateEval :=
  match filterChannels req preferredChannels output,
        filterFormat req preferredFormat output,
        filterRate req preferredRate output with
  | some channels, some format, some sampleRate =>
    some ⟨clampConfig output sampleRate, sampleRate, channels, format⟩
  | _, _, _ => none

/-- The update of `best` at the end of one loop iteration of
`Arguments::config` (src/arg.rs lines 230-238): the candidate replaces the
running best exactly when the `better` closure finds its distance strictly
smaller; both distances are computed against the current iteration's
targets. -/
def configStep (req : Requirement) (preferredRate preferredChannels : Nat)
    (preferredFormat : SampleFormat) (best : Option SelectedConfig)
    (output : CapabilityRange) : Option SelectedConfig :=
  match evalCandidate req preferredRate preferredChannels preferredFormat output with
  | none => best
  | some ev =>
    match best with
    | some b =>
      if distTo ev.targetRate ev.targetChannels ev.targetFormat ev.config
          < distTo ev.targetRate ev.targetChannels ev.targetFormat b then
        some ev.config
      else
        some b
    | none => some ev.config

/-- `Arguments::config` (src/arg.rs lines 167-246) over the device's
enumerated candidate list; `none` embeds the
`Error::NoSuitableStreamConfig` result. -/
def config (req : Requirement) (preferredRate preferredChannels : Nat)
    (preferredFormat : SampleFormat) (outputs : List CapabilityRange) :
    Option SelectedConfig :=
  outputs.foldl (configStep req preferredRate preferredChannels preferredFormat) none

/-- The constant target triple of a run of `Arguments::config`: required
value when fixed, preferred value otherwise. -/
def selDist (req : Requirement) (preferredRate preferredChannels : Nat)
    (preferredFormat : SampleFormat) : SelectedConfig → Nat :=
  distTo (req.sampleRate.getD preferredRate) (req.channels.getD preferredChannels)
    (req.sampleFormat.getD preferredFormat)

/-! ## The `Skipper` bounded streaming buffer (src/src.rs)

The shared state visible to the producer thread (`Skipper::handle`) and the
consumer (`<Skipper as Read>::read`): the `VecDeque<u8>` behind the
`slider` mutex (front of the list = oldest byte), the `done` atomic flag,
and the boolean behind the `cond` mutex/condvar pair.  Bytes are `Nat`.
The `stop` flag only gates whether another loop iteration starts and is
not part of the per-iteration semantics embedded here. -/

structure SkipperState where
  slider : List Nat
  done : Bool
  condData : Bool
deriving DecidableEq

/-- The fresh state built by `Skipper::new_with_capacity`. -/
def initState : SkipperState :=
  ⟨[], false, false⟩

/-- One return value of `source.read(&mut buffer[..])` for the 1024-byte
chunk buffer of `Skipper::handle`: `ok bytes` with `bytes.length ≤ 1024`,
or `err` for an `Err` result. -/
inductive ReadResult
  | ok (bytes : List Nat)
  | err
deriving DecidableEq

/-- src/src.rs lines 70-75: evict-then-extend.  When
`edit.len() + read > cap` the producer drains `.. len + read - cap` before
extending; `VecDeque::drain` panics (`none`) when the end of the range
exceeds the queue length. -/
def appendChunk (cap : Nat) (q bytes : List Nat) : Option (List Nat) :=
  if cap < q.length + bytes.length then
    if q.length + bytes.length - cap ≤ q.length then
      some (q.drop (q.length + bytes.length - cap) ++ bytes)
    else
      none
  else
    some (q ++ bytes)

/-- One iteration of the producer loop body of `Skipper::handle`
(src/src.rs lines 61-84) applied to the given read result.  `none` models
a panic of the producer thread: the `.unwrap()` on an `Err` read
(line 63), or an out-of-range `drain`.  A zero-byte read stores `done`
and breaks; a successful read appends the bytes (evicting the oldest on
overflow), then sets the condition flag and notifies. -/
def producerStep (cap : Nat) (s : SkipperState) (r : ReadResult) :
    Option SkipperState :=
  match r with
  | .err => none
  | .ok bytes =>
    if bytes.length = 0 then
      some { s with done := true }
    else
      match appendChunk cap s.slider bytes with
      | none => none
      | some q => some { s with slider := q, condData := true }

/-- The producer loop of `Skipper::handle` run over a sequence of source
read results, exiting after the iteration that sets `done` (the `break`
on end-of-source).  `none` models a panic of the thread. -/
def producerRun (cap : Nat) : SkipperState → List ReadResult → Option SkipperState
  | s, [] => some s
  | s, r :: rs =>
    match producerStep cap s r with
    | none => none
    | some s' => if s'.done then some s' else producerRun cap s' rs

/-- src/src.rs lines 136-157: the copy step of `<Skipper as Read>::read`.
`a` and `b` are the two slices of `VecDeque::as_slices` (queue contents
`a ++ b`, front of `a` oldest), `k` is `buf.len()`.  Returns the number of
bytes copied and the bytes written into the tail end of `buf`, in buffer
order.  Mirrors the source: the last `min(k, b.len)` bytes of `b` are
copied to the end of `buf`, and if all of `b` was copied, the last
`min(k - copied, a.len)` bytes of `a` are copied just before them. -/
def skipperReadCopy (a b : List Nat) (k : Nat) : Nat × List Nat :=
  let len := min k b.length
  let part1 := b.drop (b.length - len)
  let copied := len
  if copied = b.length then
    let len2 := min (k - copied) a.length
    let part2 := a.drop (a.length - len2)
    (copied + len2, part2 ++ part1)
  else
    (copied, part1)

/-- `<Skipper as Read>::read` (src/src.rs lines 102-160) on a queue whose
`as_slices` view is `(a, b)`, for a destination buffer of length `k`.
Result: `(bytes filled, bytes written, queue contents afterwards)`;
`none` models the blocking wait on the condition variable taken when the
queue is empty and `done` is unset (the path that cannot return without
further producer activity).  When `done` is set the read returns `Ok(0)`
at once, and on the copy path the queue is left exactly as it was — the
source never removes the copied bytes. -/
def skipperRead (done : Bool) (a b : List Nat) (k : Nat) :
    Option (Nat × List Nat × List Nat) :=
  if done then
    some (0, [], a ++ b)
  else if a.length + b.length = 0 then
    none
  else
    some ((skipperReadCopy a b k).1, (skipperReadCopy a b k).2, a ++ b)

/-! ## The playback callback (src/play.rs)

The error handling of the `build_output_stream_raw` data callback
(src/play.rs lines 72-88): classify the result of
`source.read_exact(data.bytes_mut())`. -/

inductive ReadFailureKind
  | unexpectedEof
  | other
deriving DecidableEq

inductive CallbackEffect
  | filled
  | markEndOfPlayback
  | exitProcess
deriving DecidableEq

/-- src/play.rs lines 73-88: an `UnexpectedEof` error stores the `end`
flag watched by the controlling thread; any other read error calls
`std::process::exit(1)` from inside the real-time callback thread;
success just fills the buffer. -/
def playCallbackOnReadResult : Option ReadFailureKind → CallbackEffect
  | none => .filled
  | some .unexpectedEof => .markEndOfPlayback
  | some .other => .exitProcess

/-- First-strictly-smaller-wins selection over a list, with an optional
running best: the recursion step is exactly the `best` update of
`Arguments::config`, abstracted over the scoring function.  Used to
characterise the fold of `config`. -/
def pickBest {α : Type} (key : α → Nat) : Option α → List α → Option α
  | best, [] => best
  | best, e :: l =>
    match best with
    | none => pickBest key (some e) l
    | some b => pickBest key (if key e < key b then some e else some b) l

/-! ## Helper lemmas: the `Skipper` buffer -/

/-- The two-slice copy of `<Skipper as Read>::read` is independent of where
`as_slices` splits the queue: it always copies the newest
`min(k, queue length)` bytes, i.e. the final segment of the queue. -/
lemma skipperReadCopy_eq (a b : List Nat) (k : Nat) :
    skipperReadCopy a b k
      = (min k (a.length + b.length),
         (a ++ b).drop (a.length + b.length - min k (a.length + b.length))) := by
  rcases le_or_lt b.length k with hbk | hbk
  · have hmin : min k b.length = b.length := by omega
    simp only [skipperReadCopy, hmin, if_true, eq_self_iff_true]
    simp only [Prod.mk.injEq]
    constructor
    · omega
    · rw [List.drop_append_eq_append_drop]
      congr 1
      · congr 1
        omega
      · congr 1
        omega
  · have hmin : min k b.length = k := by omega
    have hne : ¬ (k = b.length) := by omega
    simp only [skipperReadCopy, hmin]
    rw [if_neg hne]
    simp only [Prod.mk.injEq]
    constructor
    · omega
    · have hD : a.length ≤ a.length + b.length - min k (a.length + b.length) := by omega
      rw [List.drop_append_eq_append_drop, List.drop_eq_nil_of_le hD, List.nil_append]
      congr 1
      omega

/-- When the chunk fits inside the capacity (`read ≤ cap`, always true for
the 1 KiB chunk when `cap ≥ 1024`), the evict-then-extend step succeeds and
its result is the final `min(len + read, cap)` bytes of `old ++ new`. -/
lemma appendChunk_eq (cap : Nat) (q bytes : List Nat) (hn : bytes.length ≤ cap) :
    appendChunk cap q bytes
      = some ((q ++ bytes).drop (q.length + bytes.length - cap)) := by
  unfold appendChunk
  split
  · rw [if_pos (by omega)]
    congr 1
    rw [List.drop_append_eq_append_drop]
    have h0 : q.length + bytes.length - cap - q.length = 0 := by omega
    rw [h0, List.drop_zero]
  · have h0 : q.length + bytes.length - cap = 0 := by omega
    rw [h0, List.drop_zero]

/-- The `done` flag is never cleared by a producer step. -/
lemma producerStep_done_mono (cap : Nat) (s : SkipperState) (r : ReadResult)
    (s' : SkipperState) (h : producerStep cap s r = some s') (hd : s.done = true) :
    s'.done = true := by
  cases r with
  | err => exact absurd h (by simp [producerStep])
  | ok bytes =>
    by_cases h0 : bytes.length = 0
    · rw [producerStep, if_pos h0] at h
      obtain rfl := Option.some.inj h
      rfl
    · rw [producerStep, if_neg h0] at h
      cases happ : appendChunk cap s.slider bytes with
      | none => rw [happ] at h; exact absurd h (by simp)
      | some q =>
        rw [happ] at h
        obtain rfl := Option.some.inj h
        exact hd

/-- Whenever the capacity is at least the 1 KiB chunk size, the producer
loop run from any in-capacity state over any sequence of successful reads
of at most 1024 bytes never panics, and keeps the buffered length within
the capacity. -/
lemma producerRun_bounded (cap : Nat) (hcap : 1024 ≤ cap) :
    ∀ (rs : List (List Nat)) (s : SkipperState), s.slider.length ≤ cap →
      (∀ c ∈ rs, List.length c ≤ 1024) →
      ∃ s', producerRun cap s (rs.map ReadResult.ok) = some s'
        ∧ s'.slider.length ≤ cap := by
  intro rs
  induction rs with
  | nil => exact fun s hs _ => ⟨s, rfl, hs⟩
  | cons c rest ih =>
    intro s hs hc
    have hclen : c.length ≤ cap :=
      le_trans (hc c (List.mem_cons_self c rest)) hcap
    by_cases h0 : c.length = 0
    · refine ⟨{ s with done := true }, ?_, hs⟩
      simp [producerRun, producerStep, h0]
    · have happ := appendChunk_eq cap s.slider c hclen
      have hlen : ((s.slider ++ c).drop (s.slider.length + c.length - cap)).length
          ≤ cap := by
        rw [List.length_drop, List.length_append]; omega
      by_cases hd : s.done
      · refine ⟨{ s with
          slider := (s.slider ++ c).drop (s.slider.length + c.length - cap),
          condData := true }, ?_, hlen⟩
        simp [producerRun, producerStep, h0, happ, hd]
      · have hdf : s.done = false := by simpa using hd
        obtain ⟨s', hs', hlen'⟩ := ih
          { s with
            slider := (s.slider ++ c).drop (s.slider.length + c.length - cap),
            condData := true }
          hlen (fun c' hc' => hc c' (List.mem_cons_of_mem c hc'))
        rw [hdf] at hs'
        refine ⟨s', ?_, hlen'⟩
        simp [producerRun, producerStep, h0, happ, hdf, hs']

/-! ## Helper lemmas: configuration negotiation -/

lemma filterChannels_spec (req : Requirement) (pc : Nat) (o : CapabilityRange)
    (c : Nat) (h : filterChannels req pc o = some c) :
    c = req.channels.getD pc ∧ ∀ c₀, req.channels = some c₀ → o.channels = c₀ := by
  cases hr : req.channels with
  | none =>
    simp only [filterChannels, hr] at h
    obtain rfl := Option.some.inj h
    exact ⟨rfl, by simp⟩
  | some c₀ =>
    simp only [filterChannels, hr] at h
    by_cases he : o.channels ≠ c₀
    · rw [if_pos he] at h
      exact absurd h (by simp)
    · rw [if_neg he] at h
      obtain rfl := Option.some.inj h
      refine ⟨rfl, ?_⟩
      intro c₁ h₁
      obtain rfl := Option.some.inj h₁
      simpa using he

lemma filterFormat_spec (req : Requirement) (pf : SampleFormat)
    (o : CapabilityRange) (f : SampleFormat) (h : filterFormat req pf o = some f) :
    f = req.sampleFormat.getD pf ∧ ∀ f₀, req.sampleFormat = some f₀ → o.format = f₀ := by
  cases hr : req.sampleFormat with
  | none =>
    simp only [filterFormat, hr] at h
    obtain rfl := Option.some.inj h
    exact ⟨rfl, by simp⟩
  | some f₀ =>
    simp only [filterFormat, hr] at h
    by_cases he : o.format ≠ f₀
    · rw [if_pos he] at h
      exact absurd h (by simp)
    · rw [if_neg he] at h
      obtain rfl := Option.some.inj h
      refine ⟨rfl, ?_⟩
      intro f₁ h₁
      obtain rfl := Option.some.inj h₁
      simpa using he

lemma filterRate_spec (req : Requirement) (pr : Nat) (o : CapabilityRange)
    (r : Nat) (h : filterRate req pr o = some r) :
    r = req.sampleRate.getD pr
      ∧ ∀ r₀, req.sampleRate = some r₀ → o.minRate ≤ r₀ ∧ r₀ ≤ o.maxRate := by
  cases hr : req.sampleRate with
  | none =>
    simp only [filterRate, hr] at h
    obtain rfl := Option.some.inj h
    exact ⟨rfl, by simp⟩
  | some r₀ =>
    simp only [filterRate, hr] at h
    by_cases h1 : r₀ < o.minRate
    · rw [if_pos h1] at h
      exact absurd h (by simp)
    · rw [if_neg h1] at h
      by_cases h2 : o.maxRate < r₀
      · rw [if_pos h2] at h
        exact absurd h (by simp)
      · rw [if_neg h2] at h
        obtain rfl := Option.some.inj h
        refine ⟨rfl, ?_⟩
        intro r₁ h₁
        obtain rfl := Option.some.inj h₁
        omega

lemma clampConfig_channels (o : CapabilityRange) (r : Nat) :
    (clampConfig o r).channels = o.channels := by
  unfold clampConfig
  split_ifs <;> rfl

lemma clampConfig_format (o : CapabilityRange) (r : Nat) :
    (clampConfig o r).format = o.format := by
  unfold clampConfig
  split_ifs <;> rfl

lemma clampConfig_rate_mem (o : CapabilityRange) (r : Nat)
    (h : o.minRate ≤ o.maxRate) :
    o.minRate ≤ (clampConfig o r).rate ∧ (clampConfig o r).rate ≤ o.maxRate := by
  unfold clampConfig
  split_ifs <;> constructor <;> simp <;> omega

lemma clampConfig_rate_of_mem (o : CapabilityRange) (r : Nat)
    (h1 : o.minRate ≤ r) (h2 : r ≤ o.maxRate) : (clampConfig o r).rate = r := by
  unfold clampConfig
  split_ifs <;> first | rfl | omega

/-- Everything the rest of the development needs about one loop iteration:
the produced configuration is the clamp of the candidate, the captured
targets are the constant required-or-preferred values, and the hard
constraints were checked against the candidate. -/
lemma evalCandidate_inv (req : Requirement) (pr pc : Nat) (pf : SampleFormat)
    (o : CapabilityRange) (ev : CandidateEval)
    (h : evalCandidate req pr pc pf o = some ev) :
    ev.config = clampConfig o ev.targetRate
      ∧ ev.targetRate = req.sampleRate.getD pr
      ∧ ev.targetChannels = req.channels.getD pc
      ∧ ev.targetFormat = req.sampleFormat.getD pf
      ∧ (∀ c, req.channels = some c → o.channels = c)
      ∧ (∀ f, req.sampleFormat = some f → o.format = f)
      ∧ (∀ r, req.sampleRate = some r → o.minRate ≤ r ∧ r ≤ o.maxRate) := by
  unfold evalCandidate at h
  cases hc : filterChannels req pc o with
  | none => rw [hc] at h; exact absurd h (by simp)
  | some channels =>
    cases hf : filterFormat req pf o with
    | none => rw [hc, hf] at h; exact absurd h (by simp)
    | some format =>
      cases hsr : filterRate req pr o with
      | none => rw [hc, hf, hsr] at h; exact absurd h (by simp)
      | some sampleRate =>
        rw [hc, hf, hsr] at h
        obtain rfl := Option.some.inj h
        obtain ⟨hc1, hc2⟩ := filterChannels_spec req pc o channels hc
        obtain ⟨hf1, hf2⟩ := filterFormat_spec req pf o format hf
        obtain ⟨hr1, hr2⟩ := filterRate_spec req pr o sampleRate hsr
        exact ⟨rfl, hr1, hc1, hf1, hc2, hf2, hr2⟩

/-- The fold of `Arguments::config` is `pickBest` with the constant target
distance, over the surviving candidates. -/
lemma config_fold_eq (req : Requirement) (pr pc : Nat) (pf : SampleFormat) :
    ∀ (outputs : List CapabilityRange) (acc : Option CandidateEval),
      List.foldl (configStep req pr pc pf) (acc.map (fun ev => ev.config)) outputs
        = (pickBest (fun ev => selDist req pr pc pf ev.config) acc
            (outputs.filterMap (evalCandidate req pr pc pf))).map
              (fun ev => ev.config) := by
  intro outputs
  induction outputs with
  | nil => intro acc; rfl
  | cons o rest ih =>
    intro acc
    cases hev : evalCandidate req pr pc pf o with
    | none =>
      have hstep : configStep req pr pc pf (acc.map (fun ev => ev.config)) o
          = acc.map (fun ev => ev.config) := by
        unfold configStep
        rw [hev]
      rw [List.foldl_cons, hstep, List.filterMap_cons_none hev]
      exact ih acc
    | some ev =>
      obtain ⟨_, htr, htc, htf, _⟩ := evalCandidate_inv req pr pc pf o ev hev
      rw [List.foldl_cons, List.filterMap_cons_some hev]
      cases acc with
      | none =>
        have hstep : configStep req pr pc pf none o = some ev.config := by
          unfold configStep
          rw [hev]
        have := ih (some ev)
        simp only [Option.map_some'] at this
        rw [show ((none : Option CandidateEval).map (fun ev => ev.config))
              = (none : Option SelectedConfig) from rfl, hstep]
        calc List.foldl (configStep req pr pc pf) (some ev.config) rest
            = List.foldl (configStep req pr pc pf)
                ((some ev).map (fun ev => ev.config)) rest := by rfl
          _ = _ := ih (some ev)
      | some bev =>
        have hstep : configStep req pr pc pf (some bev.config) o
            = if selDist req pr pc pf ev.config < selDist req pr pc pf bev.config
              then some ev.config else some bev.config := by
          simp only [configStep, hev]
          rw [htr, htc, htf]
          rfl
        rw [show ((some bev : Option CandidateEval).map (fun ev => ev.config))
              = some bev.config from rfl, hstep]
        by_cases hlt : selDist req pr pc pf ev.config < selDist req pr pc pf bev.config
        · rw [if_pos hlt]
          have hrhs : pickBest (fun ev => selDist req pr pc pf ev.config) (some bev)
                (ev :: rest.filterMap (evalCandidate req pr pc pf))
              = pickBest (fun ev => selDist req pr pc pf ev.config) (some ev)
                (rest.filterMap (evalCandidate req pr pc pf)) := by
            rw [pickBest, if_pos hlt]
          rw [hrhs]
          calc List.foldl (configStep req pr pc pf) (some ev.config) rest
              = List.foldl (configStep req pr pc pf)
                  ((some ev).map (fun ev => ev.config)) rest := by rfl
            _ = _ := ih (some ev)
        · rw [if_neg hlt]
          have hrhs : pickBest (fun ev => selDist req pr pc pf ev.config) (some bev)
                (ev :: rest.filterMap (evalCandidate req pr pc pf))
              = pickBest (fun ev => selDist req pr pc pf ev.config) (some bev)
                (rest.filterMap (evalCandidate req pr pc pf)) := by
            rw [pickBest, if_neg hlt]
          rw [hrhs]
          calc List.foldl (configStep req pr pc pf) (some bev.config) rest
              = List.foldl (configStep req pr pc pf)
                  ((some bev).map (fun ev => ev.config)) rest := by rfl
            _ = _ := ih (some bev)

/-- The running-best fold keeps its seed unless some element is strictly
better; the element it returns beats everything before it strictly and
everything after it weakly. -/
lemma pickBest_some_char {α : Type} (key : α → Nat) :
    ∀ (l : List α) (b : α), ∃ e, pickBest key (some b) l = some e ∧
      ((e = b ∧ ∀ x ∈ l, key b ≤ key x)
        ∨ ∃ l₁ l₂, l = l₁ ++ e :: l₂ ∧ key e < key b
            ∧ (∀ x ∈ l₁, key e < key x) ∧ (∀ x ∈ l₂, key e ≤ key x)) := by
  intro l
  induction l with
  | nil => exact fun b => ⟨b, rfl, Or.inl ⟨rfl, by simp⟩⟩
  | cons x rest ih =>
    intro b
    by_cases hx : key x < key b
    · obtain ⟨e, he, hcase⟩ := ih x
      refine ⟨e, ?_, ?_⟩
      · rw [pickBest, if_pos hx]
        exact he
      · rcases hcase with ⟨rfl, hall⟩ | ⟨l₁, l₂, hsp, hlt, h₁, h₂⟩
        · exact Or.inr ⟨[], rest, rfl, hx, by simp, hall⟩
        · refine Or.inr ⟨x :: l₁, l₂, by rw [hsp, List.cons_append], ?_, ?_, h₂⟩
          · omega
          · intro y hy
            rcases List.mem_cons.mp hy with rfl | hy
            · exact hlt
            · exact h₁ y hy
    · obtain ⟨e, he, hcase⟩ := ih b
      refine ⟨e, ?_, ?_⟩
      · rw [pickBest, if_neg hx]
        exact he
      · rcases hcase with ⟨rfl, hall⟩ | ⟨l₁, l₂, hsp, hlt, h₁, h₂⟩
        · refine Or.inl ⟨rfl, ?_⟩
          intro y hy
          rcases List.mem_cons.mp hy with rfl | hy
          · omega
          · exact hall y hy
        · refine Or.inr ⟨x :: l₁, l₂, by rw [hsp, List.cons_append], hlt, ?_, h₂⟩
          intro y hy
          rcases List.mem_cons.mp hy with rfl | hy
          · omega
          · exact h₁ y hy

/-- A successful seedless `pickBest` returns the earliest element of
minimal key: strictly smaller than everything before it (so an earlier
tie would have won instead), weakly smaller than everything after it. -/
lemma pickBest_none_char {α : Type} (key : α → Nat) (l : List α) (e : α)
    (h : pickBest key none l = some e) :
    ∃ l₁ l₂, l = l₁ ++ e :: l₂
      ∧ (∀ x ∈ l₁, key e < key x) ∧ (∀ x ∈ l₂, key e ≤ key x) := by
  cases l with
  | nil => exact absurd h (by simp [pickBest])
  | cons x rest =>
    rw [pickBest] at h
    obtain ⟨e', he', hcase⟩ := pickBest_some_char key rest x
    rw [he'] at h
    obtain rfl := Option.some.inj h
    rcases hcase with ⟨rfl, hall⟩ | ⟨l₁, l₂, hsp, _, h₁, h₂⟩
    · exact ⟨[], rest, rfl, by simp, hall⟩
    · refine ⟨x :: l₁, l₂, by rw [hsp, List.cons_append], ?_, h₂⟩
      intro y hy
      rcases List.mem_cons.mp hy with rfl | hy
      · omega
      · exact h₁ y hy

/-! ## Claim theorems -/

/-- C1: the claim requires that a failing source read records the error,
sets `endOfStream` and is later surfaced to the consumer, with no abrupt
process termination from a background or callback thread.  The code does
neither: `Skipper::handle` calls `.unwrap()` on the read result, so an
`Err` panics the producer thread with the buffer state untouched (`none`:
no error recorded, `done` not set — `SkipperState` has no error field at
all because the source records none), and the `play` data callback calls
`std::process::exit(1)` on any non-`UnexpectedEof` read error. -/
theorem read_error_panics_producer_and_exits_callback :
    producerStep 1024 initState .err = none
    ∧ playCallbackOnReadResult (some .other) = .exitProcess
    ∧ playCallbackOnReadResult (some .other) ≠ .markEndOfPlayback := by
  decide

/-- C2: the claim says a read of `k` bytes from a non-empty buffer of `m`
bytes returns the oldest `min(k, m)` bytes and removes them.  On the
reachable state with buffer `[97, 98]` (oldest byte `97`), a 1-byte read
returns byte `98` — the newest — and leaves the queue exactly as it was,
so the very next read yields the same byte again. -/
theorem consumer_read_copies_newest_and_keeps_buffer :
    producerRun 1024 initState [.ok [97, 98]] = some ⟨[97, 98], false, true⟩
    ∧ skipperRead false [97, 98] [] 1 = some (1, [98], [97, 98])
    ∧ skipperRead false [97, 98] [] 1 ≠ some (1, [97], [98]) := by
  decide

/-- C3 counterexample: the claim says a read returns 0 only when
`endOfStream` is set AND the buffer is empty, with buffered bytes still
delivered first.  The state with `done` set and byte `97` still buffered
is reachable (producer reads `[97]`, then end-of-source), yet a 5-byte
read returns 0 bytes and leaves `97` undelivered. -/
theorem eof_with_nonempty_buffer_reads_zero :
    producerRun 1024 initState [.ok [97], .ok []] = some ⟨[97], true, true⟩
    ∧ skipperRead true [97] [] 5 = some (0, [], [97]) := by
  decide

/-- C3 amended: a consumer read (of a positive request) returns 0 bytes
iff `endOfStream` has been set, regardless of buffer contents — bytes
still buffered at end-of-source are never delivered — and `done` is never
cleared by a producer step, so once a read reports 0 every later read on
the same instance also reports 0. -/
theorem read_zero_iff_done :
    (∀ (done : Bool) (a b : List Nat) (k c : Nat) (d q : List Nat), 0 < k →
      skipperRead done a b k = some (c, d, q) → (c = 0 ↔ done = true))
    ∧ (∀ (a b : List Nat) (k : Nat), skipperRead true a b k = some (0, [], a ++ b))
    ∧ (∀ (cap : Nat) (s : SkipperState) (r : ReadResult) (s' : SkipperState),
        producerStep cap s r = some s' → s.done = true → s'.done = true) := by
  refine ⟨?_, ?_, producerStep_done_mono⟩
  · intro done a b k c d q hk h
    cases done with
    | true =>
      rw [skipperRead, if_pos rfl] at h
      obtain ⟨rfl, -⟩ := Prod.mk.injEq .. ▸ Option.some.inj h
      simp
    | false =>
      rw [skipperRead, if_neg (by simp)] at h
      by_cases hq : a.length + b.length = 0
      · rw [if_pos hq] at h
        exact absurd h (by simp)
      · rw [if_neg hq] at h
        obtain ⟨rfl, -⟩ := Prod.mk.injEq .. ▸ Option.some.inj h
        rw [skipperReadCopy_eq]
        simp only [Bool.false_eq_true, iff_false]
        omega
  · intro a b k
    rw [skipperRead, if_pos rfl]

/-- C3 amended, witness at concrete inputs: a 1-byte read of a running
(non-`done`) one-byte buffer returns 1 ≠ 0; a read with `done` set
returns 0 and drops nothing from the queue; a producer step keeps `done`
set. -/
theorem read_zero_iff_done_w :
    ((1 : Nat) = 0 ↔ false = true)
    ∧ skipperRead true [3] [] 2 = some (0, [], [3])
    ∧ SkipperState.done ⟨[], true, false⟩ = true := by
  refine ⟨?_, ?_, ?_⟩
  · exact read_zero_iff_done.1 false [7] [] 1 1 [7] [7] (by decide) (by decide)
  · exact read_zero_iff_done.2.1 [3] [] 2
  · exact read_zero_iff_done.2.2 8 ⟨[], true, false⟩ (.ok []) ⟨[], true, false⟩
      (by decide) rfl

/-- C4 counterexample: with a requirement fixing rate 192000 and the
single candidate range [44100, 48000], the claim says selection succeeds
at the clamped rate 48000; the code's rate filter (`continue` when the
fixed rate is outside the candidate range) eliminates the only candidate
and `config` fails with `NoSuitableStreamConfig`. -/
theorem fixed_rate_out_of_range_fails :
    config ⟨none, some 192000, none⟩ 48000 2 .i16 [⟨2, .f32, 44100, 48000⟩] = none
    ∧ config ⟨none, some 192000, none⟩ 48000 2 .i16 [⟨2, .f32, 44100, 48000⟩]
        ≠ some ⟨2, .f32, 48000⟩ := by
  decide

/-- C4 amended: a requirement that fixes a sample rate eliminates every
candidate whose [min, max] range does not contain it; a candidate that
survives the filter is configured at exactly the fixed rate (no clamping
is involved); in particular the fixed-192000 / [44100, 48000] scenario
fails instead of returning 48000. -/
theorem fixed_rate_filters_candidates :
    (∀ (req : Requirement) (pr pc : Nat) (pf : SampleFormat)
       (o : CapabilityRange) (r : Nat),
       req.sampleRate = some r → (r < o.minRate ∨ o.maxRate < r) →
       evalCandidate req pr pc pf o = none)
    ∧ (∀ (req : Requirement) (pr pc : Nat) (pf : SampleFormat)
         (o : CapabilityRange) (r : Nat) (ev : CandidateEval),
         req.sampleRate = some r → evalCandidate req pr pc pf o = some ev →
         ev.config.rate = r)
    ∧ config ⟨none, some 192000, none⟩ 48000 2 .i16 [⟨2, .f32, 44100, 48000⟩]
        = none := by
  refine ⟨?_, ?_, by decide⟩
  · intro req pr pc pf o r hreq hout
    have hrate : filterRate req pr o = none := by
      simp only [filterRate, hreq]
      rcases hout with h | h
      · rw [if_pos h]
      · by_cases h1 : r < o.minRate
        · rw [if_pos h1]
        · rw [if_neg h1, if_pos h]
    unfold evalCandidate
    rw [hrate]
    cases filterChannels req pc o <;> cases filterFormat req pf o <;> rfl
  · intro req pr pc pf o r ev hreq hev
    obtain ⟨hcfg, htr, -, -, -, -, hrange⟩ := evalCandidate_inv req pr pc pf o ev hev
    obtain ⟨h1, h2⟩ := hrange r hreq
    have : ev.targetRate = r := by rw [htr, hreq]; rfl
    rw [hcfg, this, clampConfig_rate_of_mem o r h1 h2]

/-- C4 amended, witness at concrete inputs: fixed rate 192000 eliminates
the [44100, 48000] candidate; with fixed in-range rate 44100 the surviving
candidate's configuration carries exactly rate 44100. -/
theorem fixed_rate_filters_candidates_w :
    evalCandidate ⟨none, some 192000, none⟩ 48000 2 .i16 ⟨2, .f32, 44100, 48000⟩
      = none
    ∧ (⟨⟨2, .f32, 44100⟩, 44100, 2, .i16⟩ : CandidateEval).config.rate = 44100 := by
  constructor
  · exact fixed_rate_filters_candidates.1 ⟨none, some 192000, none⟩ 48000 2 .i16
      ⟨2, .f32, 44100, 48000⟩ 192000 rfl (Or.inr (by decide))
  · exact fixed_rate_filters_candidates.2.1 ⟨none, some 44100, none⟩ 48000 2 .i16
      ⟨2, .f32, 44100, 48000⟩ 44100 ⟨⟨2, .f32, 44100⟩, 44100, 2, .i16⟩ rfl (by decide)

/-- C5: the claim says a target rate above the candidate's maximum is
clamped to the maximum (48000 here).  The code's `max_sample_rate <
sample_rate` branch instead binds `output.min_sample_rate()` and uses it:
with preferred target 192000 and candidate range [44100, 48000] the
achievable rate becomes the minimum, 44100, not 48000. -/
theorem clamp_above_max_picks_min :
    evalCandidate ⟨none, none, none⟩ 192000 2 .f32 ⟨2, .f32, 44100, 48000⟩
      = some ⟨⟨2, .f32, 44100⟩, 192000, 2, .f32⟩
    ∧ config ⟨none, none, none⟩ 192000 2 .f32 [⟨2, .f32, 44100, 48000⟩]
      = some ⟨2, .f32, 44100⟩
    ∧ (44100 : Nat) ≠ 48000 := by
  decide

/-- C6: the claim says the producer signals the data-ready condition on
both the append path and the end-of-stream path.  The code notifies only
after an append: the end-of-source iteration stores `done` and breaks
without touching the condition flag (left `false` here), while the append
iteration sets it — so a consumer blocked in the `while !*cond` wait loop
is never woken by end-of-stream. -/
theorem eof_path_does_not_signal_data_ready :
    producerStep 1024 initState (.ok []) = some ⟨[], true, false⟩
    ∧ (producerStep 1024 initState (.ok [])).map SkipperState.condData
        = some false
    ∧ producerStep 1024 initState (.ok [7]) = some ⟨[7], false, true⟩ := by
  decide

/-- C7: whenever the producer appends a chunk that fits in the capacity
(`n ≤ cap`, true for every 1 KiB chunk at the deployed 16 MiB capacity),
the new buffer contents are exactly `old ++ new` with
`old.length + n - cap` bytes dropped from the front — i.e. precisely the
oldest bytes are evicted, the retained bytes are the most recently
written ones, and the resulting length is `min(old.length + n, cap)`,
never exceeding the capacity. -/
theorem append_evicts_oldest_exactly (cap : Nat) (q bytes : List Nat)
    (hn : bytes.length ≤ cap) :
    appendChunk cap q bytes
      = some ((q ++ bytes).drop (q.length + bytes.length - cap))
    ∧ ((q ++ bytes).drop (q.length + bytes.length - cap)).length
        = min (q.length + bytes.length) cap
    ∧ ((q ++ bytes).drop (q.length + bytes.length - cap)).length ≤ cap := by
  refine ⟨appendChunk_eq cap q bytes hn, ?_, ?_⟩
  · rw [List.length_drop, List.length_append]
    omega
  · rw [List.length_drop, List.length_append]
    omega

/-- C7 witness, the spec scenario: capacity 10, write `"0123456789"` then
`"ABCDE"` with no reads in between; the buffer ends as `"56789ABCDE"`
(ASCII codes). -/
theorem append_evicts_oldest_exactly_w :
    appendChunk 10 [] [48, 49, 50, 51, 52, 53, 54, 55, 56, 57]
      = some [48, 49, 50, 51, 52, 53, 54, 55, 56, 57]
    ∧ appendChunk 10 [48, 49, 50, 51, 52, 53, 54, 55, 56, 57] [65, 66, 67, 68, 69]
      = some [53, 54, 55, 56, 57, 65, 66, 67, 68, 69] := by
  constructor
  · have h := append_evicts_oldest_exactly 10 []
      [48, 49, 50, 51, 52, 53, 54, 55, 56, 57] (by decide)
    rw [h.1]
    decide
  · have h := append_evicts_oldest_exactly 10
      [48, 49, 50, 51, 52, 53, 54, 55, 56, 57] [65, 66, 67, 68, 69] (by decide)
    rw [h.1]
    decide

/-- C8: whenever `config` succeeds, the returned configuration is that of
one enumerated candidate: its sample rate lies within that candidate's
[min, max] range (ranges being well-formed, `min ≤ max`, as `cpal`
guarantees), its channel count and format are the candidate's, and any
hard-fixed channel count or sample format is honoured exactly. -/
theorem select_within_winner_range_and_constraints (req : Requirement)
    (pr pc : Nat) (pf : SampleFormat) (outputs : List CapabilityRange)
    (sc : SelectedConfig)
    (hwf : ∀ o ∈ outputs, o.minRate ≤ o.maxRate)
    (h : config req pr pc pf outputs = some sc) :
    ∃ o ∈ outputs,
      o.minRate ≤ sc.rate ∧ sc.rate ≤ o.maxRate
      ∧ sc.channels = o.channels ∧ sc.format = o.format
      ∧ (∀ c, req.channels = some c → sc.channels = c)
      ∧ (∀ f, req.sampleFormat = some f → sc.format = f) := by
  have hfold := config_fold_eq req pr pc pf outputs none
  simp only [Option.map_none'] at hfold
  unfold config at h
  rw [hfold] at h
  cases hp : pickBest (fun ev => selDist req pr pc pf ev.config) none
      (outputs.filterMap (evalCandidate req pr pc pf)) with
  | none => rw [hp] at h; exact absurd h (by simp)
  | some ev =>
    rw [hp] at h
    simp only [Option.map_some'] at h
    obtain rfl := Option.some.inj h
    obtain ⟨l₁, l₂, hsplit, -, -⟩ := pickBest_none_char _ _ _ hp
    have hmem : ev ∈ outputs.filterMap (evalCandidate req pr pc pf) := by
      rw [hsplit]
      exact List.mem_append.mpr (Or.inr (List.mem_cons_self ev l₂))
    obtain ⟨o, ho, hev⟩ := List.mem_filterMap.mp hmem
    obtain ⟨hcfg, -, -, -, hch, hfm, -⟩ := evalCandidate_inv req pr pc pf o ev hev
    obtain ⟨hr1, hr2⟩ := clampConfig_rate_mem o ev.targetRate (hwf o ho)
    refine ⟨o, ho, ?_, ?_, ?_, ?_, ?_, ?_⟩
    · rw [hcfg]; exact hr1
    · rw [hcfg]; exact hr2
    · rw [hcfg, clampConfig_channels]
    · rw [hcfg, clampConfig_format]
    · intro c hc
      rw [hcfg, clampConfig_channels]
      exact hch c hc
    · intro f hf
      rw [hcfg, clampConfig_format]
      exact hfm f hf

/-- C8 witness at a concrete input: preferences 48000 Hz / 2 channels /
i16 against a single well-formed candidate [44100, 48000] select that
candidate at rate 48000, inside its range. -/
theorem select_within_winner_range_and_constraints_w :
    ∃ o ∈ ([⟨2, .i16, 44100, 48000⟩] : List CapabilityRange),
      o.minRate ≤ (⟨2, .i16, 48000⟩ : SelectedConfig).rate
      ∧ (⟨2, .i16, 48000⟩ : SelectedConfig).rate ≤ o.maxRate
      ∧ (⟨2, .i16, 48000⟩ : SelectedConfig).channels = o.channels
      ∧ (⟨2, .i16, 48000⟩ : SelectedConfig).format = o.format
      ∧ (∀ c, (⟨none, none, none⟩ : Requirement).channels = some c
          → (⟨2, .i16, 48000⟩ : SelectedConfig).channels = c)
      ∧ (∀ f, (⟨none, none, none⟩ : Requirement).sampleFormat = some f
          → (⟨2, .i16, 48000⟩ : SelectedConfig).format = f) :=
  select_within_winner_range_and_constraints ⟨none, none, none⟩ 48000 2 .i16
    [⟨2, .i16, 44100, 48000⟩] ⟨2, .i16, 48000⟩ (by decide) (by decide)

/-- C9: whenever `config` succeeds, the returned configuration belongs to
a surviving candidate that is *strictly* better (smaller computed
distance) than every survivor enumerated before it and at least as good
as every survivor after it: a later candidate replaces the running best
only on strictly smaller distance, so on ties the first-enumerated
candidate wins and the enumeration order is never re-sorted. -/
theorem select_tie_first_seen_wins (req : Requirement) (pr pc : Nat)
    (pf : SampleFormat) (outputs : List CapabilityRange) (sc : SelectedConfig)
    (h : config req pr pc pf outputs = some sc) :
    ∃ evs₁ ev evs₂,
      outputs.filterMap (evalCandidate req pr pc pf) = evs₁ ++ ev :: evs₂
      ∧ sc = ev.config
      ∧ (∀ x ∈ evs₁, selDist req pr pc pf ev.config
          < selDist req pr pc pf x.config)
      ∧ (∀ x ∈ evs₂, selDist req pr pc pf ev.config
          ≤ selDist req pr pc pf x.config) := by
  have hfold := config_fold_eq req pr pc pf outputs none
  simp only [Option.map_none'] at hfold
  unfold config at h
  rw [hfold] at h
  cases hp : pickBest (fun ev => selDist req pr pc pf ev.config) none
      (outputs.filterMap (evalCandidate req pr pc pf)) with
  | none => rw [hp] at h; exact absurd h (by simp)
  | some ev =>
    rw [hp] at h
    simp only [Option.map_some'] at h
    obtain rfl := Option.some.inj h
    obtain ⟨l₁, l₂, hsplit, h₁, h₂⟩ := pickBest_none_char _ _ _ hp
    exact ⟨l₁, ev, l₂, hsplit, rfl, h₁, h₂⟩

/-- C9 witness at a concrete input: two surviving candidates tie at
distance 8000 from the preferred 48000 Hz (one clamped up from 40000, one
down to 56000); the selection is the first one, at rate 40000. -/
theorem select_tie_first_seen_wins_w :
    ∃ evs₁ ev evs₂,
      ([⟨2, .i16, 40000, 40000⟩, ⟨2, .i16, 56000, 60000⟩] :
          List CapabilityRange).filterMap
        (evalCandidate ⟨none, none, none⟩ 48000 2 .i16) = evs₁ ++ ev :: evs₂
      ∧ (⟨2, .i16, 40000⟩ : SelectedConfig) = ev.config
      ∧ (∀ x ∈ evs₁, selDist ⟨none, none, none⟩ 48000 2 .i16 ev.config
          < selDist ⟨none, none, none⟩ 48000 2 .i16 x.config)
      ∧ (∀ x ∈ evs₂, selDist ⟨none, none, none⟩ 48000 2 .i16 ev.config
          ≤ selDist ⟨none, none, none⟩ 48000 2 .i16 x.config) :=
  select_tie_first_seen_wins ⟨none, none, none⟩ 48000 2 .i16
    [⟨2, .i16, 40000, 40000⟩, ⟨2, .i16, 56000, 60000⟩] ⟨2, .i16, 40000⟩ (by decide)

/-- C10: with a capacity of at least the fixed 1 KiB chunk size, the
producer loop run from a fresh `Skipper` over any successful reads of at
most 1024 bytes never lets the drain range exceed the queue length — the
append step never panics and the buffered length stays within capacity;
with a capacity below 1024 there is a source read (of more than
`capacity` bytes) whose drain range exceeds the queue length, panicking
the producer thread. -/
theorem chunk_capacity_drain_safety (cap : Nat) :
    (1024 ≤ cap →
      ∀ rs : List (List Nat), (∀ c ∈ rs, c.length ≤ 1024) →
        ∃ s, producerRun cap initState (rs.map ReadResult.ok) = some s
          ∧ s.slider.length ≤ cap)
    ∧ (cap < 1024 →
      ∃ bytes : List Nat, bytes.length = 1024 ∧ cap < bytes.length
        ∧ producerStep cap initState (.ok bytes) = none) := by
  constructor
  · intro hcap rs hrs
    exact producerRun_bounded cap hcap rs initState (by simp [initState]) hrs
  · intro hcap
    have hlen : (List.replicate 1024 (0 : Nat)).length = 1024 :=
      List.length_replicate 1024 0
    refine ⟨List.replicate 1024 0, hlen, by omega, ?_⟩
    have happ : appendChunk cap initState.slider (List.replicate 1024 0) = none := by
      rw [appendChunk,
        if_pos (by simp only [initState, List.length_nil, hlen]; omega),
        if_neg (by simp only [initState, List.length_nil, hlen]; omega)]
    rw [producerStep, if_neg (by omega), happ]

/-- C10 witness at concrete capacities: at the chunk-sized capacity 1024
a maximal read succeeds from a fresh state; at capacity 1023 some
read of at most 1024 bytes panics the producer. -/
theorem chunk_capacity_drain_safety_w :
    (∃ s, producerRun 1024 initState
        ([List.replicate 1024 7].map ReadResult.ok) = some s
      ∧ s.slider.length ≤ 1024)
    ∧ (∃ bytes : List Nat, bytes.length = 1024 ∧ 1023 < bytes.length
        ∧ producerStep 1023 initState (.ok bytes) = none) := by
  constructor
  · exact (chunk_capacity_drain_safety 1024).1 (by decide)
      [List.replicate 1024 7] (by
        intro c hc
        rw [List.mem_singleton] at hc
        subst hc
        rw [List.length_replicate])
  · exact (chunk_capacity_drain_safety 1023).2 (by decide)

end Alplay
